import Mathlib

/-!
Verification development for the Totoro plugger (cart allocation engine).

The definitions below are a shallow embedding of `src/Totoro/scheduler/plugger.py`.
Python floats that only undergo comparisons are modelled as rationals; Python
dictionaries (`OrderedDict`) are modelled as insertion-ordered association lists
(`List (Nat × α)`) with update-in-place semantics (`odSet`); Python `KeyError`,
`IndexError` and `TotoroError` become `Except String` errors.

External collaborators (the database, the Timeline, plate completion
bookkeeping) are modelled as input data: a `Plate` carries the values the
plugger reads from those collaborators (`getPlateCompletion()` variants,
`isPlugged`, `getActiveCartNumber()`, the plugging history), and
`ActivePlugging` carries the rows the allocation run queries once.
-/

/-- A work-item plate, carrying the fields of `Totoro.dbclasses.Plate` that
`plugger.py` reads. `completion` is `getPlateCompletion()`, `completionIncl`
is `getPlateCompletion(includeIncompleteSets=True)`, `completionNoMock` is
`getPlateCompletion(useMock=False)`. `pluggings` lists past pluggings as
`(fscan_mjd, cartridge.number)` pairs. -/
structure Plate where
  plate_id : Nat
  priority : Nat
  isPlugged : Bool
  activeCart : Nat
  isReplug : Bool
  isMaNGA : Bool
  isComplete : Bool
  completion : ℚ
  completionIncl : ℚ
  completionNoMock : ℚ
  pluggings : List (Nat × Nat)
  deriving DecidableEq, Repr

/-- A row of the `ActivePlugging` table as read by `allocateCarts`: `pk` is the
row key (compared against `config['offlineCarts']` by the source) and
`cartNumber` is `plugging.cartridge.number`. -/
structure ActivePlugging where
  pk : Nat
  cartNumber : Nat
  plate : Plate
  deriving DecidableEq, Repr

/-- The 5-tuple returned by `getCartStatus`:
`(cart_number, plate, status_number, status_code, completion)`. -/
structure CartStatus where
  cartNumber : Nat
  plate : Option Plate
  code : Nat
  label : String
  completion : ℚ
  deriving DecidableEq, Repr

/-- The configuration values read by the plugger. -/
structure Config where
  mangaCarts : List Nat
  offlineCarts : List Nat
  apogeeCarts : List Nat
  forcePlugPriority : Nat
  noPlugPriority : Nat
  deriving DecidableEq, Repr

/-- Keys of an ordered dictionary, in insertion order. -/
def odKeys (od : List (Nat × α)) : List Nat := od.map Prod.fst

/-- Ordered-dictionary lookup (`od[k]` returning `none` instead of raising):
the value of the first binding of `k`. -/
def odLookup : List (Nat × α) → Nat → Option α
  | [], _ => none
  | e :: rest, k => if e.1 = k then some e.2 else odLookup rest k

/-- Ordered-dictionary assignment `od[k] = v`: replaces the binding in place
if the key exists, appends it at the end otherwise (Python `dict`
semantics; the dictionaries built here never hold a key twice). -/
def odSet : List (Nat × α) → Nat → α → List (Nat × α)
  | [], k, v => [(k, v)]
  | e :: rest, k, v => if e.1 = k then (k, v) :: rest else e :: odSet rest k v

/-- Ordered-dictionary `od.pop(k)`: removes the binding, raising `KeyError`
(modelled as `Except.error`) when the key is missing. -/
def odPop : List (Nat × α) → Nat → Except String (List (Nat × α))
  | [], _ => Except.error "KeyError"
  | e :: rest, k =>
    if e.1 = k then Except.ok rest
    else
      match odPop rest k with
      | Except.error msg => Except.error msg
      | Except.ok rest2 => Except.ok (e :: rest2)

/-- `getCartStatus(activePluggings, cartNumber)` from `plugger.py`: classifies
the occupant of a cart. Zero matching active pluggings give the empty status;
more than one is a fatal error; otherwise the single occupant is classified as
non-MaNGA / complete / not-started / started. (The source's residual
`unknown` return on line 79 sits after unconditional returns and is dead.) -/
def getCartStatus (activePluggings : List ActivePlugging) (cartNumber : Nat) :
    Except String CartStatus :=
  match activePluggings.filter (fun ap => ap.cartNumber == cartNumber) with
  | [] => Except.ok ⟨cartNumber, none, 0, "empty", 0⟩
  | [ap] =>
      if !ap.plate.isMaNGA then
        Except.ok ⟨cartNumber, some ap.plate, 1, "noMaNGAplate", 0⟩
      else if ap.plate.isComplete then
        Except.ok ⟨cartNumber, some ap.plate, 2, "MaNGA_complete", 1⟩
      else if ap.plate.completion = 0 then
        Except.ok ⟨cartNumber, some ap.plate, 3, "MaNGA_noStarted", 0⟩
      else
        Except.ok ⟨cartNumber, some ap.plate, 4, "MaNGA_started", ap.plate.completion⟩
  | _ => Except.error "more than one active plugging"

/-- `getCartPlate(activePluggings, cartNumber)`: plate plugged in a cart. -/
def getCartPlate (activePluggings : List ActivePlugging) (cartNumber : Nat) : Option Plate :=
  (activePluggings.find? (fun ap => ap.cartNumber == cartNumber)).map ActivePlugging.plate

/-- Helper for `getCartForReplug`: the plugging with the largest `fscan_mjd`,
keeping the first one on ties (the behaviour of `np.argmax`). -/
def maxMJDPlugging (p : Nat × Nat) : List (Nat × Nat) → Nat × Nat
  | [] => p
  | q :: rest => maxMJDPlugging (if q.1 > p.1 then q else p) rest

/-- `getCartForReplug(plate)`: the cart of the plugging with the latest
`fscan_mjd`, or `None` when the plate has no plugging history. -/
def getCartForReplug (plate : Plate) : Option Nat :=
  match plate.pluggings with
  | [] => none
  | p :: rest => some (maxMJDPlugging p rest).2

/-- The `replaceMsgs` table of `plugger.py` (any status code outside the
table's domain never reaches it in the source). -/
def replaceMsgs (code : Nat) : String :=
  if code = 0 then "empty cart"
  else if code = 1 then "replacing non-MaNGA plate"
  else if code = 2 then "replacing complete MaNGA plate"
  else if code = 3 then "replacing non-started MaNGA plate"
  else if code = 4 then "replacing started MaNGA plate"
  else "replacing plate with unknown status"

/-- The single classification pass of `prioritiseCarts`: distributes the
statuses over the six intermediate lists
`(empty, noMaNGA, complete, noStarted, unknown, started)`, preserving order
and dropping unrecognised labels (the Python `if`/`elif` chain). -/
def bucketCarts : List CartStatus →
    List CartStatus × List CartStatus × List CartStatus ×
      List CartStatus × List CartStatus × List CartStatus
  | [] => ([], [], [], [], [], [])
  | c :: rest =>
    let (e, n, co, ns, u, s) := bucketCarts rest
    if c.label = "empty" then (c :: e, n, co, ns, u, s)
    else if c.label = "noMaNGAplate" then (e, c :: n, co, ns, u, s)
    else if c.label = "MaNGA_complete" then (e, n, c :: co, ns, u, s)
    else if c.label = "MaNGA_noStarted" then (e, n, co, c :: ns, u, s)
    else if c.label = "unknown" then (e, n, co, ns, c :: u, s)
    else if c.label = "MaNGA_started" then (e, n, co, ns, u, c :: s)
    else (e, n, co, ns, u, s)

/-- The comparison used to sort started carts: ascending completion
(the fifth element of the status tuple). -/
def completionLE (a b : CartStatus) : Prop := a.completion ≤ b.completion

instance : DecidableRel completionLE := fun a b => inferInstanceAs (Decidable (_ ≤ _))

/-- `prioritiseCarts(cartStatus, activePluggings)` from `plugger.py`: buckets
the statuses, sorts the started bucket by ascending completion (Python's
`sorted` is stable; insertion sort with a non-strict comparison is too), and
returns `empty + complete + unknown + noMaNGA + noStarted + started`. -/
def prioritiseCarts (cartStatus : List CartStatus)
    (_activePluggings : List ActivePlugging) : List CartStatus :=
  let (e, n, co, ns, u, s) := bucketCarts cartStatus
  let started := List.insertionSort completionLE s
  e ++ co ++ u ++ n ++ ns ++ started

/-- The mutable working state of `Plugger.allocateCarts`: the cart→plate
mapping `self.carts`, the undecided `cartStatus` dictionary, the
`allocatedPlates` list and the `cartPlateMessage` audit dictionary. -/
structure AllocState where
  carts : List (Nat × Option Plate)
  cartStatus : List (Nat × CartStatus)
  allocated : List Plate
  msgs : List (Nat × (Option Plate × String))
  deriving DecidableEq, Repr

/-- The dictionary comprehension building `cartStatus`: one `getCartStatus`
query per undecided cart, in cart-dictionary order. -/
def buildCartStatus (activePluggings : List ActivePlugging) :
    List Nat → Except String (List (Nat × CartStatus))
  | [] => Except.ok []
  | c :: rest =>
    match getCartStatus activePluggings c with
    | Except.error e => Except.error e
    | Except.ok s =>
      match buildCartStatus activePluggings rest with
      | Except.error e => Except.error e
      | Except.ok tail => Except.ok ((c, s) :: tail)

/-- Phase 1 of `allocateCarts` (lines 442-449): every candidate plate that is
already plugged is assigned to its active cart, recorded as allocated, and its
cart is popped from the undecided statuses (`KeyError` if absent). -/
def phase1 : List Plate → AllocState → Except String AllocState
  | [], st => Except.ok st
  | p :: rest, st =>
    if p.isPlugged then
      match odPop st.cartStatus p.activeCart with
      | Except.error e => Except.error e
      | Except.ok cs =>
        phase1 rest
          { carts := odSet st.carts p.activeCart (some p),
            cartStatus := cs,
            allocated := st.allocated ++ [p],
            msgs := odSet st.msgs p.activeCart (some p, "already plugged") }
    else phase1 rest st

/-- Phase 2 of `allocateCarts` (lines 451-469): replug preference. Faithful to
the source, `cartStatus[cartNumber]` is read *before* the
`cartNumber is not None and cartNumber not in offlineCarts` test, so a missing
key (no plugging history, or a preferred cart absent from the undecided pool)
raises `KeyError` instead of falling through. -/
def phase2 (cfg : Config) : List Plate → AllocState → Except String AllocState
  | [], st => Except.ok st
  | p :: rest, st =>
    if p ∈ st.allocated then phase2 cfg rest st
    else if p.isReplug then
      match getCartForReplug p with
      | none => Except.error "KeyError"
      | some c =>
        match odLookup st.cartStatus c with
        | none => Except.error "KeyError"
        | some cs =>
          if c ∈ cfg.offlineCarts then phase2 cfg rest st
          else
            match odPop st.cartStatus c with
            | Except.error e => Except.error e
            | Except.ok csRest =>
              phase2 cfg rest
                { carts := odSet st.carts c (some p),
                  cartStatus := csRest,
                  allocated := st.allocated ++ [p],
                  msgs := odSet st.msgs c (some p, replaceMsgs cs.code) }
    else phase2 cfg rest st

/-- Phase 3 of `allocateCarts` (lines 476-491): greedy fill. Each remaining
plate consumes the head of the prioritised cart list
(`sortedCarts[0]` / `sortedCarts.pop(0)`, `IndexError` when empty). Returns
the leftover sorted carts together with the state. -/
def phase3 : List Plate → List CartStatus → AllocState →
    Except String (List CartStatus × AllocState)
  | [], sc, st => Except.ok (sc, st)
  | p :: rest, sc, st =>
    if p ∈ st.allocated then phase3 rest sc st
    else
      match sc with
      | [] => Except.error "IndexError"
      | cart :: scRest =>
        let baseMsg := replaceMsgs cart.code
        let msg := if cart.label = "MaNGA_started" then
            baseMsg ++ ", completion=" ++ toString cart.completion
          else baseMsg
        phase3 rest scRest
          { carts := odSet st.carts cart.cartNumber (some p),
            cartStatus := st.cartStatus,
            allocated := st.allocated ++ [p],
            msgs := odSet st.msgs cart.cartNumber (some p, msg) }

/-- The unassigned-cart disposition loop of `allocateCarts` (lines 498-517):
carts whose occupant is complete are marked for unplugging; occupied MaNGA
carts keep their plate; anything else is left alone. -/
def postStep : List CartStatus → List (Nat × Option Plate) →
    List (Nat × (Option Plate × String)) →
    List (Nat × Option Plate) × List (Nat × (Option Plate × String))
  | [], carts, msgs => (carts, msgs)
  | cart :: rest, carts, msgs =>
    if cart.completion ≥ 1 then
      postStep rest carts (odSet msgs cart.cartNumber (cart.plate, "unplug"))
    else
      match cart.plate with
      | some p =>
        if cart.label ≠ "noMaNGAplate" then
          postStep rest (odSet carts cart.cartNumber (some p))
            (odSet msgs cart.cartNumber
              (some p, if p.isPlugged then "already plugged" else "unchanged"))
        else
          postStep rest carts (odSet msgs cart.cartNumber (some p, "not doing anything"))
      | none =>
        postStep rest carts (odSet msgs cart.cartNumber (none, "not doing anything"))

/-- The bucket split of `addCartOrder` (lines 561-573): occupied carts are
classified as force-plug (priority equals `forcePlugPriority`), completed
(`getPlateCompletion(useMock=False) > 1`, the source's strict comparison) or
scheduled, preserving cart-dictionary order. -/
def cartOrderBuckets (cfg : Config) : List (Nat × Option Plate) →
    List (Nat × Plate) × List (Nat × Plate) × List (Nat × Plate)
  | [] => ([], [], [])
  | e :: rest =>
    let (completed, scheduled, forcePlug) := cartOrderBuckets cfg rest
    match e.2 with
    | none => (completed, scheduled, forcePlug)
    | some p =>
      if p.priority = cfg.forcePlugPriority then (completed, scheduled, (e.1, p) :: forcePlug)
      else if p.completionNoMock > 1 then ((e.1, p) :: completed, scheduled, forcePlug)
      else (completed, (e.1, p) :: scheduled, forcePlug)

/-- The sort key of the `scheduled` metric: the number of new (mock) exposures
planned for a plate in this run, defaulting to 0 when the plate was not
scheduled (`self._nNewExposures[plate_id] if ... else 0`). -/
def nNewKey (nNew : List (Nat × Nat)) (e : Nat × Plate) : Nat :=
  (odLookup nNew e.2.plate_id).getD 0

/-- The exposure-count comparison for the `scheduled` metric. -/
def nNewLE (nNew : List (Nat × Nat)) (a b : Nat × Plate) : Prop :=
  nNewKey nNew a ≤ nNewKey nNew b

instance (nNew : List (Nat × Nat)) : DecidableRel (nNewLE nNew) :=
  fun a b => inferInstanceAs (Decidable (_ ≤ _))

/-- `addCartOrder(metric='scheduled')` (lines 558-646, scheduled branch):
completed carts, then offline carts not otherwise used, then scheduled carts
ascending by planned new exposure count, then force-plug carts. `np.argsort`
is modelled by a sort on the same key. -/
def addCartOrderScheduled (cfg : Config) (carts : List (Nat × Option Plate))
    (nNew : List (Nat × Nat)) : List Nat :=
  let (completed, scheduled, forcePlug) := cartOrderBuckets cfg carts
  let scheduledOrdered := List.insertionSort (nNewLE nNew) scheduled
  let usedCarts := (completed ++ scheduledOrdered ++ forcePlug).map Prod.fst
  let offline := cfg.offlineCarts.filter (fun c => c ∉ usedCarts)
  completed.map Prod.fst ++ offline ++ scheduledOrdered.map Prod.fst ++
    forcePlug.map Prod.fst

/-- The result of one `allocateCarts` run: the final cart→plate mapping, the
audit messages and the `cart_order` list computed by `addCartOrder`. -/
structure AllocResult where
  carts : List (Nat × Option Plate)
  msgs : List (Nat × (Option Plate × String))
  cartOrder : List Nat
  deriving DecidableEq, Repr

/-- The cart dictionary built by `_initFromDates` (lines 197-200): one `None`
binding per MaNGA cart that is not offline. -/
def initCarts (cfg : Config) : List (Nat × Option Plate) :=
  (cfg.mangaCarts.filter (fun c => c ∉ cfg.offlineCarts)).foldl
    (fun od c => odSet od c none) []

/-- The re-add loop of `allocateCarts` (lines 431-433): every active plugging
whose `pk` is an offline cart is written back into the cart dictionary with
value `None`. -/
def readdOffline (cfg : Config) (activePluggings : List ActivePlugging)
    (carts : List (Nat × Option Plate)) : List (Nat × Option Plate) :=
  activePluggings.foldl
    (fun cs ap => if ap.pk ∈ cfg.offlineCarts then odSet cs ap.pk none else cs) carts

/-- Phases 1-3 of `allocateCarts` followed by the unassigned-cart disposition
and the final `addCartOrder(metric='scheduled')`, from the prepared state. -/
def allocPhases (cfg : Config) (plates : List Plate)
    (activePluggings : List ActivePlugging) (nNew : List (Nat × Nat))
    (st0 : AllocState) : Except String AllocResult :=
  match phase1 plates st0 with
  | Except.error e => Except.error e
  | Except.ok st1 =>
    match phase2 cfg plates st1 with
    | Except.error e => Except.error e
    | Except.ok st2 =>
      let sortedCarts := prioritiseCarts (st2.cartStatus.map Prod.snd) activePluggings
      match phase3 plates sortedCarts st2 with
      | Except.error e => Except.error e
      | Except.ok (leftover, st3) =>
        let (carts4, msgs4) := postStep leftover st3.carts st3.msgs
        Except.ok ⟨carts4, msgs4, addCartOrderScheduled cfg carts4 nNew⟩

/-- The truncation pre-step of `allocateCarts` (lines 408-413): when there are
more candidate plates than carts, only the first `len(self.carts)` plates are
kept (with a non-fatal warning in the source). -/
def truncatePlates (plates0 : List Plate) (carts0 : List (Nat × Option Plate)) : List Plate :=
  if plates0.length > carts0.length then plates0.take carts0.length else plates0

/-- The comprehension keys of the `cartStatus` dictionary (lines 436-438):
the carts of the dictionary whose value is still `None`. -/
def statusKeysOf (carts : List (Nat × Option Plate)) : List Nat :=
  (carts.filter (fun e => e.2.isNone)).map Prod.fst

/-- `Plugger.allocateCarts(plates)` (lines 405-528): truncation of the
candidate list to the cart count, re-adding offline carts that have an active
plugging (lines 431-433, keyed by `ActivePlugging.pk`), status classification
of undecided carts, phases 1-3, the unassigned-cart disposition and the final
`addCartOrder(metric='scheduled')`. -/
def allocateCarts (cfg : Config) (carts0 : List (Nat × Option Plate))
    (plates0 : List Plate) (activePluggings : List ActivePlugging)
    (nNew : List (Nat × Nat)) : Except String AllocResult :=
  match buildCartStatus activePluggings (statusKeysOf (readdOffline cfg activePluggings carts0)) with
  | Except.error e => Except.error e
  | Except.ok cartStatus =>
    allocPhases cfg (truncatePlates plates0 carts0) activePluggings nNew
      ⟨readdOffline cfg activePluggings carts0, cartStatus, [], []⟩

/-- `Plugger._cleanUp` (lines 648-659): removes cart bindings whose value is
`None`. -/
def cleanUp (carts : List (Nat × Option Plate)) : List (Nat × Option Plate) :=
  carts.filter (fun e => !e.2.isNone)

/-- The output post-processing of `Plugger.getASOutput` (lines 241-256):
unused MaNGA carts are prepended to `cart_order`, the reversed APOGEE carts
are prepended to that, and plate values are replaced by their identifiers. -/
def getASOutput (cfg : Config) (carts : List (Nat × Option Plate))
    (cartOrder : List Nat) : List (Nat × Option Nat) × List Nat :=
  let nonUsedCarts := cfg.mangaCarts.filter (fun c => c ∉ cartOrder)
  let order1 := nonUsedCarts ++ cartOrder
  let order2 := cfg.apogeeCarts.reverse ++ order1
  (carts.map (fun e => (e.1, e.2.map Plate.plate_id)), order2)

/-- The scheduled-path pipeline behind `getASOutput`: `allocateCarts` on the
freshly initialised cart dictionary, `_cleanUp`, then the output
post-processing. The Timeline collaborator is externalised: its scheduled
plate list and new-exposure counts are inputs. -/
def runPlugger (cfg : Config) (plates : List Plate)
    (activePluggings : List ActivePlugging) (nNew : List (Nat × Nat)) :
    Except String (List (Nat × Option Nat) × List Nat) :=
  match allocateCarts cfg (initCarts cfg) plates activePluggings nNew with
  | Except.error e => Except.error e
  | Except.ok res => Except.ok (getASOutput cfg (cleanUp res.carts) res.cartOrder)

/-- The `selectRest` loop of `selectPlates` (lines 304-343): plates below the
priority floor or already complete are skipped; plates with nonzero
completion (including incomplete sets) are tagged `isReplug`. -/
def selectRest (cfg : Config) : List Plate → List Plate
  | [] => []
  | p :: rest =>
    if p.priority ≤ cfg.noPlugPriority then selectRest cfg rest
    else if p.isComplete then selectRest cfg rest
    else if p.completionIncl > 0 then { p with isReplug := true } :: selectRest cfg rest
    else p :: selectRest cfg rest

/-- `Plugger.selectPlates` (lines 295-345) applied to the raw eligible pool
returned by `getAtAPO`: plates whose priority equals `forcePlugPriority` or
that are plugged are taken first; the remainder pass the floor and
completeness filters and receive the `isReplug` tag. -/
def selectPlates (cfg : Config) (plates : List Plate) : List Plate :=
  let firstPass := plates.filter (fun p => p.priority == cfg.forcePlugPriority || p.isPlugged)
  firstPass ++ selectRest cfg (plates.filter (fun p => p ∉ firstPass))

/-- The three ways `Plugger.__init__` can proceed. -/
inductive PluggerMode where
  | noManga : PluggerMode
  | badDates : PluggerMode
  | badDateOrder : PluggerMode
  | fromDates : ℚ → ℚ → PluggerMode
  deriving DecidableEq, Repr

/-- `Plugger.__init__` (lines 138-152): dates equal to `0.` are normalised to
`None`; both absent selects the degraded no-MaNGA mode; exactly one absent is
the fatal parameter error; otherwise `_initFromDates` runs (whose
`assert jd0 < jd1` is `badDateOrder` on failure). -/
def pluggerInit (startDate endDate : Option ℚ) : PluggerMode :=
  let s := if startDate = some 0 then none else startDate
  let e := if endDate = some 0 then none else endDate
  match s, e with
  | none, none => PluggerMode.noManga
  | some a, some b =>
    if a < b then PluggerMode.fromDates a b else PluggerMode.badDateOrder
  | _, _ => PluggerMode.badDates

/-- The invariant threaded through the allocation phases for the uniqueness
claim: the cart dictionary has no duplicate keys, every assigned plate is
either plugged or recorded in `allocatedPlates`, every assigned plugged plate
sits in its own active cart, and no plate is assigned to two distinct carts. -/
def CartsInv (carts : List (Nat × Option Plate)) (allocated : List Plate) : Prop :=
  (odKeys carts).Nodup ∧
  (∀ c p, (c, some p) ∈ carts → p.isPlugged = true ∨ p ∈ allocated) ∧
  (∀ c p, (c, some p) ∈ carts → p.isPlugged = true → c = p.activeCart) ∧
  (∀ c1 c2 p, (c1, some p) ∈ carts → (c2, some p) ∈ carts → c1 = c2)

/-- The occupied bindings of a cart dictionary, as `(cart, plate)` pairs. -/
def cartsOccupied (carts : List (Nat × Option Plate)) : List (Nat × Plate) :=
  carts.filterMap (fun e => e.2.map (fun p => (e.1, p)))

/-- The cart order exactly as claim C9 words it (a completed plate is one
with completion at least 1), stated for comparison with the source's
`addCartOrderScheduled`, which uses a strict comparison. -/
def claimedCartOrderScheduled (cfg : Config) (carts : List (Nat × Option Plate))
    (nNew : List (Nat × Nat)) : List Nat :=
  let occupied := cartsOccupied carts
  let force := occupied.filter (fun e => e.2.priority = cfg.forcePlugPriority)
  let completed := occupied.filter
    (fun e => e.2.priority ≠ cfg.forcePlugPriority ∧ e.2.completionNoMock ≥ 1)
  let scheduled := occupied.filter
    (fun e => e.2.priority ≠ cfg.forcePlugPriority ∧ ¬e.2.completionNoMock ≥ 1)
  let scheduledOrdered := List.insertionSort (nNewLE nNew) scheduled
  let used := (completed ++ scheduledOrdered ++ force).map Prod.fst
  completed.map Prod.fst ++ cfg.offlineCarts.filter (fun c => c ∉ used) ++
    scheduledOrdered.map Prod.fst ++ force.map Prod.fst

/-! Concrete inputs used by the example, witness and counterexample theorems. -/

/-- A baseline MaNGA plate: unplugged, untouched, ordinary priority. -/
def pBase : Plate := ⟨100, 5, false, 0, false, true, false, 0, 0, 0, []⟩

/-- A started MaNGA plate plugged in cart 1. -/
def pStarted : Plate := { pBase with
  plate_id := 10
  isPlugged := true
  activeCart := 1
  completion := mkRat 1 2
  completionNoMock := mkRat 1 2 }

/-- A complete MaNGA plate plugged in cart 2. -/
def pComplete : Plate := { pBase with
  plate_id := 20
  isComplete := true
  isPlugged := true
  activeCart := 2
  completion := 1
  completionNoMock := 1 }

/-- A fresh, unplugged candidate plate. -/
def pNew : Plate := { pBase with plate_id := 30 }

/-- A second fresh, unplugged candidate plate. -/
def pNew2 : Plate := { pBase with plate_id := 31 }

/-- A started plate plugged in cart 1, used as the truncated candidate. -/
def pTrunc : Plate := { pBase with
  plate_id := 40
  isPlugged := true
  activeCart := 1
  completion := mkRat 1 2 }

/-- A replug-flagged plate with no plugging history. -/
def pReplugNoHist : Plate := { pBase with plate_id := 50, isReplug := true }

/-- A non-force plate whose completion (without mock exposures) is exactly 1. -/
def pDoneOne : Plate := { pBase with plate_id := 60, completionNoMock := 1 }

/-- A non-force plate with completion one half. -/
def pHalfDone : Plate := { pBase with plate_id := 61, completionNoMock := mkRat 1 2 }

/-- A complete, unplugged plate whose priority lies above the force value. -/
def pHighPrio : Plate := { pBase with plate_id := 70, priority := 11, isComplete := true }

/-- An unplugged plate whose priority equals the force value. -/
def pForce : Plate := { pBase with plate_id := 80, priority := 10 }

/-- Two MaNGA carts, nothing offline, force priority 10, floor 2. -/
def cfgTwo : Config := ⟨[1, 2], [], [], 10, 2⟩

/-- Two MaNGA carts with cart 2 offline. -/
def cfgOffline : Config := ⟨[1, 2], [2], [], 10, 2⟩

/-- Active pluggings: `pStarted` in cart 1 and `pComplete` in cart 2. -/
def apsBoth : List ActivePlugging := [⟨1, 1, pStarted⟩, ⟨2, 2, pComplete⟩]

/-- Active plugging of `pTrunc` in cart 1 only. -/
def apsTrunc : List ActivePlugging := [⟨1, 1, pTrunc⟩]

/-- Active plugging of `pStarted` in cart 1 only. -/
def apsStab : List ActivePlugging := [⟨1, 1, pStarted⟩]

/-- The allocation produced by `allocateCarts cfgTwo (initCarts cfgTwo)
[pStarted, pNew] apsStab []`, used by the uniqueness witness. -/
def resUniq : AllocResult :=
  ⟨[(1, some pStarted), (2, some pNew)],
   [(1, (some pStarted, "already plugged")), (2, (some pNew, "empty cart"))],
   [1, 2]⟩

/-- The allocation produced by `allocateCarts cfgTwo (initCarts cfgTwo)
[pStarted] apsStab []`, used by the stability witness. -/
def resStab : AllocResult :=
  ⟨[(1, some pStarted), (2, none)],
   [(1, (some pStarted, "already plugged")), (2, (none, "not doing anything"))],
   [1]⟩

/-- The allocation produced by `allocateCarts cfgTwo (initCarts cfgTwo)
[pNew, pNew2, pTrunc] apsTrunc []`, used by the stability counterexample:
`pTrunc` is plugged in cart 1 yet cart 1 ends up holding `pNew2`. -/
def resTrunc : AllocResult :=
  ⟨[(1, some pNew2), (2, some pNew)],
   [(2, (some pNew, "empty cart")),
    (1, (some pNew2, "replacing started MaNGA plate, completion=1/2"))],
   [1, 2]⟩

/-- An empty-cart status tuple on cart 1. -/
def stEmpty : CartStatus := ⟨1, none, 0, "empty", 0⟩

/-- A started status at completion nine tenths on cart 2. -/
def stStarted09 : CartStatus := ⟨2, some pStarted, 4, "MaNGA_started", mkRat 9 10⟩

/-- A complete status on cart 3. -/
def stComplete : CartStatus := ⟨3, some pComplete, 2, "MaNGA_complete", 1⟩

/-- A started status at completion one fifth on cart 4. -/
def stStarted02 : CartStatus := ⟨4, some pStarted, 4, "MaNGA_started", mkRat 1 5⟩

/-- An unknown status on cart 5. -/
def stUnknown : CartStatus := ⟨5, none, 10, "unknown", 0⟩

instance {ε α : Type} [DecidableEq ε] [DecidableEq α] : DecidableEq (Except ε α) := fun x y =>
  match x, y with
  | Except.error a, Except.error b =>
    if h : a = b then Decidable.isTrue (by rw [h])
    else Decidable.isFalse (by intro hc; cases hc; exact h rfl)
  | Except.error _, Except.ok _ => Decidable.isFalse (by intro hc; cases hc)
  | Except.ok _, Except.error _ => Decidable.isFalse (by intro hc; cases hc)
  | Except.ok a, Except.ok b =>
    if h : a = b then Decidable.isTrue (by rw [h])
    else Decidable.isFalse (by intro hc; cases hc; exact h rfl)

/-! Ordered-dictionary lemmas. -/

theorem odLookup_odSet_self (od : List (Nat × α)) (k : Nat) (v : α) :
    odLookup (odSet od k v) k = some v := by
  induction od with
  | nil => simp [odSet, odLookup]
  | cons e rest ih =>
    by_cases h : e.1 = k
    · simp [odSet, odLookup, h]
    · simp [odSet, odLookup, h, ih]

theorem odLookup_odSet_ne (od : List (Nat × α)) {a k : Nat} (v : α) (hne : a ≠ k) :
    odLookup (odSet od k v) a = odLookup od a := by
  have hne2 : k ≠ a := Ne.symm hne
  induction od with
  | nil => simp [odSet, odLookup, hne2]
  | cons e rest ih =>
    by_cases h : e.1 = k
    · simp [odSet, odLookup, h, hne2]
    · by_cases h2 : e.1 = a <;> simp [odSet, odLookup, h, h2, ih, hne, hne2]

theorem mem_odSet {od : List (Nat × α)} {k : Nat} {v : α} {e : Nat × α}
    (he : e ∈ odSet od k v) : e = (k, v) ∨ e ∈ od := by
  induction od with
  | nil => simpa [odSet] using he
  | cons f rest ih =>
    by_cases h : f.1 = k
    · rcases (by simpa [odSet, h] using he : e = (k, v) ∨ e ∈ rest) with h1 | h1
      · exact Or.inl h1
      · exact Or.inr (List.mem_cons_of_mem _ h1)
    · rcases (by simpa [odSet, h] using he : e = f ∨ e ∈ odSet rest k v) with h1 | h1
      · exact Or.inr (h1 ▸ List.mem_cons_self _ _)
      · rcases ih h1 with h2 | h2
        · exact Or.inl h2
        · exact Or.inr (List.mem_cons_of_mem _ h2)

theorem odKeys_odSet (od : List (Nat × α)) (k : Nat) (v : α) :
    odKeys (odSet od k v) = if k ∈ odKeys od then odKeys od else odKeys od ++ [k] := by
  induction od with
  | nil => simp [odSet, odKeys]
  | cons e rest ih =>
    by_cases h : e.1 = k
    · simp [odSet, odKeys, h]
    · have hne : k ≠ e.1 := fun hc => h hc.symm
      have hmem : (k ∈ odKeys (e :: rest)) ↔ (k ∈ odKeys rest) := by
        simp [odKeys, hne]
      by_cases h2 : k ∈ odKeys rest
      · rw [if_pos (hmem.mpr h2)]
        have hr := ih
        rw [if_pos h2] at hr
        simp [odSet, odKeys, h, hr] at hr ⊢
        exact hr
      · rw [if_neg (fun hc => h2 (hmem.mp hc))]
        have hr := ih
        rw [if_neg h2] at hr
        simp [odSet, odKeys, h] at hr ⊢
        simp [hr]

theorem nodup_odKeys_odSet {od : List (Nat × α)} (hnd : (odKeys od).Nodup)
    (k : Nat) (v : α) : (odKeys (odSet od k v)).Nodup := by
  rw [odKeys_odSet]
  by_cases h : k ∈ odKeys od
  · simpa [h] using hnd
  · simp only [h, if_false]
    refine List.Nodup.append hnd (List.nodup_singleton k) ?_
    intro a ha hb
    rw [List.mem_singleton] at hb
    exact h (hb ▸ ha)

theorem odPop_sublist {od od2 : List (Nat × α)} {k : Nat}
    (h : odPop od k = Except.ok od2) : od2.Sublist od := by
  induction od generalizing od2 with
  | nil => simp [odPop] at h
  | cons e rest ih =>
    by_cases he : e.1 = k
    · simp only [odPop, he, if_true, Except.ok.injEq] at h
      exact h ▸ List.sublist_cons_self e rest
    · simp only [odPop, he, if_false] at h
      cases hr : odPop rest k with
      | error msg => rw [hr] at h; cases h
      | ok rest2 =>
        rw [hr] at h
        cases h
        exact List.Sublist.cons₂ e (ih hr)

theorem odPop_mem_key {od od2 : List (Nat × α)} {k : Nat}
    (h : odPop od k = Except.ok od2) : k ∈ odKeys od := by
  induction od generalizing od2 with
  | nil => simp [odPop] at h
  | cons e rest ih =>
    by_cases he : e.1 = k
    · simp [odKeys, he]
    · simp only [odPop, he, if_false] at h
      cases hr : odPop rest k with
      | error msg => rw [hr] at h; cases h
      | ok rest2 => exact List.mem_cons_of_mem _ (ih hr)

theorem odPop_not_mem_key {od od2 : List (Nat × α)} {k : Nat}
    (hnd : (odKeys od).Nodup) (h : odPop od k = Except.ok od2) : k ∉ odKeys od2 := by
  induction od generalizing od2 with
  | nil => simp [odPop] at h
  | cons e rest ih =>
    by_cases he : e.1 = k
    · simp only [odPop, he, if_true, Except.ok.injEq] at h
      subst h
      subst he
      simpa [odKeys] using (List.nodup_cons.mp hnd).1
    · simp only [odPop, he, if_false] at h
      cases hr : odPop rest k with
      | error msg => rw [hr] at h; cases h
      | ok rest2 =>
        rw [hr] at h
        cases h
        intro hc
        rcases (by simpa [odKeys] using hc : k = e.1 ∨ k ∈ odKeys rest2) with h1 | h1
        · exact he h1.symm
        · exact ih (List.nodup_cons.mp (by simpa [odKeys] using hnd)).2 hr h1

theorem odPop_keys_subset {od od2 : List (Nat × α)} {k : Nat}
    (h : odPop od k = Except.ok od2) : ∀ a ∈ odKeys od2, a ∈ odKeys od := by
  intro a ha
  exact ((odPop_sublist h).map Prod.fst).subset ha

theorem odPop_subset {od od2 : List (Nat × α)} {k : Nat}
    (h : odPop od k = Except.ok od2) : ∀ e ∈ od2, e ∈ od :=
  fun _ he => (odPop_sublist h).subset he

theorem odLookup_mem {od : List (Nat × α)} {k : Nat} {v : α}
    (h : odLookup od k = some v) : (k, v) ∈ od := by
  induction od with
  | nil => simp [odLookup] at h
  | cons e rest ih =>
    by_cases he : e.1 = k
    · simp only [odLookup, he, if_true, Option.some.injEq] at h
      subst h
      have hkv : (k, e.2) = e := by rw [← he]
      rw [hkv]
      exact List.mem_cons_self _ _
    · simp only [odLookup, he, if_false] at h
      exact List.mem_cons_of_mem _ (ih h)

theorem mem_odKeys_of_lookup {od : List (Nat × α)} {k : Nat} {v : α}
    (h : odLookup od k = some v) : k ∈ odKeys od := by
  have := odLookup_mem h
  exact List.mem_map.mpr ⟨(k, v), this, rfl⟩

/-! Classification lemmas. -/

theorem getCartStatus_ok {aps : List ActivePlugging} {c : Nat} {cs : CartStatus}
    (h : getCartStatus aps c = Except.ok cs) :
    cs.cartNumber = c ∧
      ∀ p, cs.plate = some p → ∃ ap, ap ∈ aps ∧ ap.cartNumber = c ∧ ap.plate = p := by
  unfold getCartStatus at h
  cases hfil : aps.filter (fun ap => ap.cartNumber == c) with
  | nil =>
    rw [hfil] at h
    cases h
    exact ⟨rfl, by intro p hp; cases hp⟩
  | cons ap tail =>
    cases tail with
    | nil =>
      rw [hfil] at h
      have hap : ap ∈ aps ∧ ap.cartNumber = c := by
        have hm : ap ∈ aps.filter (fun ap => ap.cartNumber == c) := by
          rw [hfil]; exact List.mem_cons_self _ _
        have := List.of_mem_filter hm
        exact ⟨List.mem_of_mem_filter hm, by simpa using this⟩
      by_cases h1 : ap.plate.isMaNGA
      · by_cases h2 : ap.plate.isComplete
        · simp only [h1, h2, Bool.not_true, if_true, if_false, Bool.false_eq_true,
            Except.ok.injEq] at h
          cases h
          exact ⟨rfl, by intro p hp; cases hp; exact ⟨ap, hap.1, hap.2, rfl⟩⟩
        · by_cases h3 : ap.plate.completion = 0
          · simp only [h1, h2, h3, Bool.not_true, if_true, if_false, Bool.false_eq_true,
              Except.ok.injEq] at h
            cases h
            exact ⟨rfl, by intro p hp; cases hp; exact ⟨ap, hap.1, hap.2, rfl⟩⟩
          · simp only [h1, h2, h3, Bool.not_true, if_true, if_false, Bool.false_eq_true,
              Except.ok.injEq] at h
            cases h
            exact ⟨rfl, by intro p hp; cases hp; exact ⟨ap, hap.1, hap.2, rfl⟩⟩
      · simp only [h1, Bool.not_false, if_true, Except.ok.injEq] at h
        cases h
        exact ⟨rfl, by intro p hp; cases hp; exact ⟨ap, hap.1, hap.2, rfl⟩⟩
    | cons ap2 tail2 =>
      rw [hfil] at h
      cases h

theorem buildCartStatus_mem {aps : List ActivePlugging} {ks : List Nat}
    {l : List (Nat × CartStatus)} (h : buildCartStatus aps ks = Except.ok l) :
    ∀ e ∈ l, getCartStatus aps e.1 = Except.ok e.2 := by
  induction ks generalizing l with
  | nil =>
    simp only [buildCartStatus, Except.ok.injEq] at h
    subst h
    intro e he
    cases he
  | cons c rest ih =>
    simp only [buildCartStatus] at h
    cases hg : getCartStatus aps c with
    | error msg => rw [hg] at h; cases h
    | ok s =>
      rw [hg] at h
      cases hb : buildCartStatus aps rest with
      | error msg => rw [hb] at h; cases h
      | ok tail =>
        rw [hb] at h
        cases h
        intro e he
        rcases List.mem_cons.mp he with h1 | h1
        · subst h1; exact hg
        · exact ih hb e h1

theorem buildCartStatus_keys {aps : List ActivePlugging} {ks : List Nat}
    {l : List (Nat × CartStatus)} (h : buildCartStatus aps ks = Except.ok l) :
    odKeys l = ks := by
  induction ks generalizing l with
  | nil =>
    simp only [buildCartStatus, Except.ok.injEq] at h
    subst h
    rfl
  | cons c rest ih =>
    simp only [buildCartStatus] at h
    cases hg : getCartStatus aps c with
    | error msg => rw [hg] at h; cases h
    | ok s =>
      rw [hg] at h
      cases hb : buildCartStatus aps rest with
      | error msg => rw [hb] at h; cases h
      | ok tail =>
        rw [hb] at h
        cases h
        have hk := ih hb
        simp only [odKeys] at hk ⊢
        simp [hk]

/-! Prioritiser lemmas. -/

theorem bucketCarts_eq (l : List CartStatus) :
    bucketCarts l =
      (l.filter (fun c => c.label = "empty"),
       l.filter (fun c => c.label = "noMaNGAplate"),
       l.filter (fun c => c.label = "MaNGA_complete"),
       l.filter (fun c => c.label = "MaNGA_noStarted"),
       l.filter (fun c => c.label = "unknown"),
       l.filter (fun c => c.label = "MaNGA_started")) := by
  induction l with
  | nil => rfl
  | cons c rest ih =>
    simp only [bucketCarts, ih]
    by_cases h1 : c.label = "empty"
    · simp [List.filter_cons, h1]
    · by_cases h2 : c.label = "noMaNGAplate"
      · simp [List.filter_cons, h1, h2]
      · by_cases h3 : c.label = "MaNGA_complete"
        · simp [List.filter_cons, h1, h2, h3]
        · by_cases h4 : c.label = "MaNGA_noStarted"
          · simp [List.filter_cons, h1, h2, h3, h4]
          · by_cases h5 : c.label = "unknown"
            · simp [List.filter_cons, h1, h2, h3, h4, h5]
            · by_cases h6 : c.label = "MaNGA_started" <;>
                simp [List.filter_cons, h1, h2, h3, h4, h5, h6]

theorem prioritiseCarts_eq (l : List CartStatus) (aps : List ActivePlugging) :
    prioritiseCarts l aps =
      l.filter (fun c => c.label = "empty") ++
      l.filter (fun c => c.label = "MaNGA_complete") ++
      l.filter (fun c => c.label = "unknown") ++
      l.filter (fun c => c.label = "noMaNGAplate") ++
      l.filter (fun c => c.label = "MaNGA_noStarted") ++
      List.insertionSort completionLE (l.filter (fun c => c.label = "MaNGA_started")) := by
  simp [prioritiseCarts, bucketCarts_eq]

theorem mem_prioritiseCarts {l : List CartStatus} {aps : List ActivePlugging}
    {x : CartStatus} (hx : x ∈ prioritiseCarts l aps) : x ∈ l := by
  rw [prioritiseCarts_eq] at hx
  simp only [List.mem_append, List.mem_insertionSort, List.mem_filter] at hx
  rcases hx with ((((⟨h, _⟩ | ⟨h, _⟩) | ⟨h, _⟩) | ⟨h, _⟩) | ⟨h, _⟩) | ⟨h, _⟩ <;> exact h

/-! Cart-order bucket lemma. -/

theorem cartOrderBuckets_eq (cfg : Config) (carts : List (Nat × Option Plate)) :
    cartOrderBuckets cfg carts =
      ((cartsOccupied carts).filter
         (fun e => ¬e.2.priority = cfg.forcePlugPriority ∧ e.2.completionNoMock > 1),
       (cartsOccupied carts).filter
         (fun e => ¬e.2.priority = cfg.forcePlugPriority ∧ ¬e.2.completionNoMock > 1),
       (cartsOccupied carts).filter (fun e => e.2.priority = cfg.forcePlugPriority)) := by
  induction carts with
  | nil => rfl
  | cons e rest ih =>
    simp only [cartOrderBuckets, ih, cartsOccupied]
    cases hp : e.2 with
    | none => simp [List.filterMap_cons, hp]
    | some p =>
      by_cases h1 : p.priority = cfg.forcePlugPriority
      · simp [List.filterMap_cons, hp, h1, List.filter_cons]
      · by_cases h2 : p.completionNoMock > 1
        · simp [List.filterMap_cons, hp, h1, h2, List.filter_cons]
        · have h2le := not_lt.mp h2
          simp [List.filterMap_cons, hp, h1, h2, h2le, List.filter_cons]

/-! Phase 1 lemmas. -/

theorem phase1_alloc_mono {l : List Plate} {st st2 : AllocState}
    (h : phase1 l st = Except.ok st2) : ∀ q ∈ st.allocated, q ∈ st2.allocated := by
  induction l generalizing st with
  | nil =>
    simp only [phase1, Except.ok.injEq] at h
    subst h
    exact fun q hq => hq
  | cons p rest ih =>
    simp only [phase1] at h
    cases hp : p.isPlugged with
    | false =>
      rw [hp] at h
      simp only [Bool.false_eq_true, if_false] at h
      exact ih h
    | true =>
      rw [hp] at h
      simp only [if_true] at h
      cases hpop : odPop st.cartStatus p.activeCart with
      | error e => rw [hpop] at h; cases h
      | ok cs =>
        rw [hpop] at h
        intro q hq
        exact ih h q (by simp [hq])

theorem phase1_plugged_alloc {l : List Plate} {st st2 : AllocState}
    (h : phase1 l st = Except.ok st2) :
    ∀ p ∈ l, p.isPlugged = true → p ∈ st2.allocated := by
  induction l generalizing st with
  | nil => intro p hp; cases hp
  | cons q rest ih =>
    simp only [phase1] at h
    cases hq : q.isPlugged with
    | false =>
      rw [hq] at h
      simp only [Bool.false_eq_true, if_false] at h
      intro p hp hplug
      rcases List.mem_cons.mp hp with h1 | h1
      · subst h1; rw [hplug] at hq; cases hq
      · exact ih h p h1 hplug
    | true =>
      rw [hq] at h
      simp only [if_true] at h
      cases hpop : odPop st.cartStatus q.activeCart with
      | error e => rw [hpop] at h; cases h
      | ok cs =>
        rw [hpop] at h
        intro p hp hplug
        rcases List.mem_cons.mp hp with h1 | h1
        · subst h1
          exact phase1_alloc_mono h p (by simp)
        · exact ih h p h1 hplug

theorem phase1_status_sublist {l : List Plate} {st st2 : AllocState}
    (h : phase1 l st = Except.ok st2) : st2.cartStatus.Sublist st.cartStatus := by
  induction l generalizing st with
  | nil =>
    simp only [phase1, Except.ok.injEq] at h
    subst h
    exact List.Sublist.refl _
  | cons p rest ih =>
    simp only [phase1] at h
    cases hp : p.isPlugged with
    | false =>
      rw [hp] at h
      simp only [Bool.false_eq_true, if_false] at h
      exact ih h
    | true =>
      rw [hp] at h
      simp only [if_true] at h
      cases hpop : odPop st.cartStatus p.activeCart with
      | error e => rw [hpop] at h; cases h
      | ok cs =>
        rw [hpop] at h
        exact (ih h).trans (odPop_sublist hpop)

theorem phase1_inv {l : List Plate} {st st2 : AllocState}
    (hinv : CartsInv st.carts st.allocated) (h : phase1 l st = Except.ok st2) :
    CartsInv st2.carts st2.allocated := by
  induction l generalizing st with
  | nil =>
    simp only [phase1, Except.ok.injEq] at h
    subst h
    exact hinv
  | cons p rest ih =>
    simp only [phase1] at h
    cases hp : p.isPlugged with
    | false =>
      rw [hp] at h
      simp only [Bool.false_eq_true, if_false] at h
      exact ih hinv h
    | true =>
      rw [hp] at h
      simp only [if_true] at h
      cases hpop : odPop st.cartStatus p.activeCart with
      | error e => rw [hpop] at h; cases h
      | ok cs =>
        rw [hpop] at h
        refine ih ?_ h
        obtain ⟨hK, hA, hD, hJ⟩ := hinv
        refine ⟨nodup_odKeys_odSet hK _ _, ?_, ?_, ?_⟩
        · intro c q hq
          rcases mem_odSet hq with h1 | h1
          · have h1e : c = p.activeCart ∧ q = p := by
              simpa using (Prod.mk.injEq _ _ _ _).mp h1
            rw [h1e.2]
            exact Or.inl hp
          · rcases hA c q h1 with h2 | h2
            · exact Or.inl h2
            · exact Or.inr (by simp [h2])
        · intro c q hq hqp
          rcases mem_odSet hq with h1 | h1
          · have hc : c = p.activeCart ∧ q = p := by
              simpa using (Prod.mk.injEq _ _ _ _).mp h1
            rw [hc.1, hc.2]
          · exact hD c q h1 hqp
        · intro c1 c2 q h1 h2
          rcases mem_odSet h1 with ha | ha <;> rcases mem_odSet h2 with hb | hb
          · have e1 : c1 = p.activeCart := by simpa using ((Prod.mk.injEq _ _ _ _).mp ha).1
            have e2 : c2 = p.activeCart := by simpa using ((Prod.mk.injEq _ _ _ _).mp hb).1
            rw [e1, e2]
          · have e1 : c1 = p.activeCart ∧ q = p := by
              simpa using (Prod.mk.injEq _ _ _ _).mp ha
            have e2 : c2 = p.activeCart := by
              rw [e1.2] at hb
              exact hD c2 p hb hp
            rw [e1.1, e2]
          · have e2 : c2 = p.activeCart ∧ q = p := by
              simpa using (Prod.mk.injEq _ _ _ _).mp hb
            have e1 : c1 = p.activeCart := by
              rw [e2.2] at ha
              exact hD c1 p ha hp
            rw [e1, e2.1]
          · exact hJ c1 c2 q ha hb

/-! Phase 2 lemmas. -/

theorem phase2_inv {cfg : Config} {l : List Plate} {st st2 : AllocState}
    (hinv : CartsInv st.carts st.allocated)
    (hplug : ∀ p ∈ l, p.isPlugged = true → p ∈ st.allocated)
    (h : phase2 cfg l st = Except.ok st2) :
    CartsInv st2.carts st2.allocated ∧ ∀ q ∈ st.allocated, q ∈ st2.allocated := by
  induction l generalizing st with
  | nil =>
    simp only [phase2, Except.ok.injEq] at h
    subst h
    exact ⟨hinv, fun q hq => hq⟩
  | cons p rest ih =>
    simp only [phase2] at h
    by_cases hmem : p ∈ st.allocated
    · rw [if_pos hmem] at h
      exact ih hinv (fun q hq => hplug q (List.mem_cons_of_mem _ hq)) h
    · rw [if_neg hmem] at h
      cases hrep : p.isReplug with
      | false =>
        rw [hrep] at h
        simp only [Bool.false_eq_true, if_false] at h
        exact ih hinv (fun q hq => hplug q (List.mem_cons_of_mem _ hq)) h
      | true =>
        rw [hrep] at h
        simp only [if_true] at h
        cases hcart : getCartForReplug p with
        | none => simp only [hcart] at h; cases h
        | some c =>
          simp only [hcart] at h
          cases hlook : odLookup st.cartStatus c with
          | none => simp only [hlook] at h; cases h
          | some cs =>
            simp only [hlook] at h
            by_cases hoff : c ∈ cfg.offlineCarts
            · rw [if_pos hoff] at h
              exact ih hinv (fun q hq => hplug q (List.mem_cons_of_mem _ hq)) h
            · rw [if_neg hoff] at h
              cases hpop : odPop st.cartStatus c with
              | error e => simp only [hpop] at h; cases h
              | ok csRest =>
                simp only [hpop] at h
                have hnp : p.isPlugged = false := by
                  cases hpl : p.isPlugged with
                  | true => exact absurd (hplug p (List.mem_cons_self _ _) hpl) hmem
                  | false => rfl
                obtain ⟨hK, hA, hD, hJ⟩ := hinv
                have hinv2 : CartsInv (odSet st.carts c (some p)) (st.allocated ++ [p]) := by
                  refine ⟨nodup_odKeys_odSet hK _ _, ?_, ?_, ?_⟩
                  · intro c0 q hq
                    rcases mem_odSet hq with h1 | h1
                    · have h1e : c0 = c ∧ q = p := by
                        simpa using (Prod.mk.injEq _ _ _ _).mp h1
                      rw [h1e.2]
                      exact Or.inr (by simp)
                    · rcases hA c0 q h1 with h2 | h2
                      · exact Or.inl h2
                      · exact Or.inr (by simp [h2])
                  · intro c0 q hq hqp
                    rcases mem_odSet hq with h1 | h1
                    · have h1e : c0 = c ∧ q = p := by
                        simpa using (Prod.mk.injEq _ _ _ _).mp h1
                      rw [h1e.2] at hqp
                      rw [hnp] at hqp
                      cases hqp
                    · exact hD c0 q h1 hqp
                  · intro c1 c2 q h1 h2
                    rcases mem_odSet h1 with ha | ha <;> rcases mem_odSet h2 with hb | hb
                    · have e1 : c1 = c := by
                        simpa using ((Prod.mk.injEq _ _ _ _).mp ha).1
                      have e2 : c2 = c := by
                        simpa using ((Prod.mk.injEq _ _ _ _).mp hb).1
                      rw [e1, e2]
                    · have ea : c1 = c ∧ q = p := by
                        simpa using (Prod.mk.injEq _ _ _ _).mp ha
                      rw [ea.2] at hb
                      rcases hA c2 p hb with h3 | h3
                      · rw [hnp] at h3; cases h3
                      · exact absurd h3 hmem
                    · have eb : c2 = c ∧ q = p := by
                        simpa using (Prod.mk.injEq _ _ _ _).mp hb
                      rw [eb.2] at ha
                      rcases hA c1 p ha with h3 | h3
                      · rw [hnp] at h3; cases h3
                      · exact absurd h3 hmem
                    · exact hJ c1 c2 q ha hb
                have hres := ih hinv2
                  (fun q hq hqp => by simp [hplug q (List.mem_cons_of_mem _ hq) hqp]) h
                exact ⟨hres.1, fun q hq => hres.2 q (by simp [hq])⟩

theorem phase2_status_sublist {cfg : Config} {l : List Plate} {st st2 : AllocState}
    (h : phase2 cfg l st = Except.ok st2) : st2.cartStatus.Sublist st.cartStatus := by
  induction l generalizing st with
  | nil =>
    simp only [phase2, Except.ok.injEq] at h
    subst h
    exact List.Sublist.refl _
  | cons p rest ih =>
    simp only [phase2] at h
    by_cases hmem : p ∈ st.allocated
    · rw [if_pos hmem] at h
      exact ih h
    · rw [if_neg hmem] at h
      cases hrep : p.isReplug with
      | false =>
        rw [hrep] at h
        simp only [Bool.false_eq_true, if_false] at h
        exact ih h
      | true =>
        rw [hrep] at h
        simp only [if_true] at h
        cases hcart : getCartForReplug p with
        | none => simp only [hcart] at h; cases h
        | some c =>
          simp only [hcart] at h
          cases hlook : odLookup st.cartStatus c with
          | none => simp only [hlook] at h; cases h
          | some cs =>
            simp only [hlook] at h
            by_cases hoff : c ∈ cfg.offlineCarts
            · rw [if_pos hoff] at h
              exact ih h
            · rw [if_neg hoff] at h
              cases hpop : odPop st.cartStatus c with
              | error e => simp only [hpop] at h; cases h
              | ok csRest =>
                simp only [hpop] at h
                exact (ih h).trans (odPop_sublist hpop)

/-! Phase 3 and disposition lemmas. -/

theorem phase3_inv {l : List Plate} {sc : List CartStatus} {st : AllocState}
    {left : List CartStatus} {st2 : AllocState}
    (hinv : CartsInv st.carts st.allocated)
    (hplug : ∀ p ∈ l, p.isPlugged = true → p ∈ st.allocated)
    (h : phase3 l sc st = Except.ok (left, st2)) :
    CartsInv st2.carts st2.allocated ∧ (∀ q ∈ st.allocated, q ∈ st2.allocated) ∧
      ∀ x ∈ left, x ∈ sc := by
  induction l generalizing sc st with
  | nil =>
    simp only [phase3, Except.ok.injEq, Prod.mk.injEq] at h
    obtain ⟨h1, h2⟩ := h
    subst h1
    subst h2
    exact ⟨hinv, fun q hq => hq, fun x hx => hx⟩
  | cons p rest ih =>
    simp only [phase3] at h
    by_cases hmem : p ∈ st.allocated
    · rw [if_pos hmem] at h
      exact ih hinv (fun q hq => hplug q (List.mem_cons_of_mem _ hq)) h
    · rw [if_neg hmem] at h
      cases sc with
      | nil => cases h
      | cons cart scRest =>
        simp only at h
        have hnp : p.isPlugged = false := by
          cases hpl : p.isPlugged with
          | true => exact absurd (hplug p (List.mem_cons_self _ _) hpl) hmem
          | false => rfl
        obtain ⟨hK, hA, hD, hJ⟩ := hinv
        have hinv2 : CartsInv (odSet st.carts cart.cartNumber (some p))
            (st.allocated ++ [p]) := by
          refine ⟨nodup_odKeys_odSet hK _ _, ?_, ?_, ?_⟩
          · intro c0 q hq
            rcases mem_odSet hq with h1 | h1
            · have h1e : c0 = cart.cartNumber ∧ q = p := by
                simpa using (Prod.mk.injEq _ _ _ _).mp h1
              rw [h1e.2]
              exact Or.inr (by simp)
            · rcases hA c0 q h1 with h2 | h2
              · exact Or.inl h2
              · exact Or.inr (by simp [h2])
          · intro c0 q hq hqp
            rcases mem_odSet hq with h1 | h1
            · have h1e : c0 = cart.cartNumber ∧ q = p := by
                simpa using (Prod.mk.injEq _ _ _ _).mp h1
              rw [h1e.2] at hqp
              rw [hnp] at hqp
              cases hqp
            · exact hD c0 q h1 hqp
          · intro c1 c2 q h1 h2
            rcases mem_odSet h1 with ha | ha <;> rcases mem_odSet h2 with hb | hb
            · have e1 : c1 = cart.cartNumber := by
                simpa using ((Prod.mk.injEq _ _ _ _).mp ha).1
              have e2 : c2 = cart.cartNumber := by
                simpa using ((Prod.mk.injEq _ _ _ _).mp hb).1
              rw [e1, e2]
            · have ea : c1 = cart.cartNumber ∧ q = p := by
                simpa using (Prod.mk.injEq _ _ _ _).mp ha
              rw [ea.2] at hb
              rcases hA c2 p hb with h3 | h3
              · rw [hnp] at h3; cases h3
              · exact absurd h3 hmem
            · have eb : c2 = cart.cartNumber ∧ q = p := by
                simpa using (Prod.mk.injEq _ _ _ _).mp hb
              rw [eb.2] at ha
              rcases hA c1 p ha with h3 | h3
              · rw [hnp] at h3; cases h3
              · exact absurd h3 hmem
            · exact hJ c1 c2 q ha hb
        have hres := ih hinv2
          (fun q hq hqp => by simp [hplug q (List.mem_cons_of_mem _ hq) hqp]) h
        exact ⟨hres.1, fun q hq => hres.2.1 q (by simp [hq]),
          fun x hx => List.mem_cons_of_mem _ (hres.2.2 x hx)⟩

theorem postStep_inv {leftover : List CartStatus} {carts : List (Nat × Option Plate)}
    (msgs : List (Nat × (Option Plate × String))) {allocated : List Plate}
    (hinv : CartsInv carts allocated)
    (hsrc : ∀ cs ∈ leftover, ∀ p, cs.plate = some p →
      p.isPlugged = true ∧ cs.cartNumber = p.activeCart) :
    CartsInv (postStep leftover carts msgs).1 allocated := by
  induction leftover generalizing carts msgs with
  | nil => exact hinv
  | cons cs rest ih =>
    simp only [postStep]
    by_cases hc : cs.completion ≥ 1
    · rw [if_pos hc]
      exact ih _ hinv (fun x hx => hsrc x (List.mem_cons_of_mem _ hx))
    · rw [if_neg hc]
      cases hp : cs.plate with
      | none => exact ih _ hinv (fun x hx => hsrc x (List.mem_cons_of_mem _ hx))
      | some p =>
        dsimp only
        by_cases hl : cs.label ≠ "noMaNGAplate"
        · rw [if_pos hl]
          obtain ⟨hplugd, hcart⟩ := hsrc cs (List.mem_cons_self _ _) p hp
          obtain ⟨hK, hA, hD, hJ⟩ := hinv
          refine ih _ ⟨nodup_odKeys_odSet hK _ _, ?_, ?_, ?_⟩
            (fun x hx => hsrc x (List.mem_cons_of_mem _ hx))
          · intro c0 q hq
            rcases mem_odSet hq with h1 | h1
            · have h1e : c0 = cs.cartNumber ∧ q = p := by
                simpa using (Prod.mk.injEq _ _ _ _).mp h1
              rw [h1e.2]
              exact Or.inl hplugd
            · exact hA c0 q h1
          · intro c0 q hq hqp
            rcases mem_odSet hq with h1 | h1
            · have h1e : c0 = cs.cartNumber ∧ q = p := by
                simpa using (Prod.mk.injEq _ _ _ _).mp h1
              rw [h1e.1, h1e.2, hcart]
            · exact hD c0 q h1 hqp
          · intro c1 c2 q h1 h2
            rcases mem_odSet h1 with ha | ha <;> rcases mem_odSet h2 with hb | hb
            · have e1 : c1 = cs.cartNumber := by
                simpa using ((Prod.mk.injEq _ _ _ _).mp ha).1
              have e2 : c2 = cs.cartNumber := by
                simpa using ((Prod.mk.injEq _ _ _ _).mp hb).1
              rw [e1, e2]
            · have ea : c1 = cs.cartNumber ∧ q = p := by
                simpa using (Prod.mk.injEq _ _ _ _).mp ha
              rw [ea.2] at hb
              rw [ea.1, hcart]
              exact (hD c2 p hb hplugd).symm ▸ rfl
            · have eb : c2 = cs.cartNumber ∧ q = p := by
                simpa using (Prod.mk.injEq _ _ _ _).mp hb
              rw [eb.2] at ha
              rw [eb.1, hcart]
              exact (hD c1 p ha hplugd) ▸ rfl
            · exact hJ c1 c2 q ha hb
        · rw [if_neg hl]
          exact ih _ hinv (fun x hx => hsrc x (List.mem_cons_of_mem _ hx))

/-! Stability-track lemmas: a binding whose cart is no longer among the
undecided statuses survives the remaining phases untouched. -/

theorem phase1_preserve {l : List Plate} {st st2 : AllocState} {a : Nat} {v : Option Plate}
    (ha : odLookup st.carts a = some v) (hnk : a ∉ odKeys st.cartStatus)
    (h : phase1 l st = Except.ok st2) :
    odLookup st2.carts a = some v ∧ a ∉ odKeys st2.cartStatus := by
  induction l generalizing st with
  | nil =>
    simp only [phase1, Except.ok.injEq] at h
    subst h
    exact ⟨ha, hnk⟩
  | cons p rest ih =>
    simp only [phase1] at h
    cases hp : p.isPlugged with
    | false =>
      rw [hp] at h
      simp only [Bool.false_eq_true, if_false] at h
      exact ih ha hnk h
    | true =>
      rw [hp] at h
      simp only [if_true] at h
      cases hpop : odPop st.cartStatus p.activeCart with
      | error e => rw [hpop] at h; cases h
      | ok cs =>
        rw [hpop] at h
        have hne : a ≠ p.activeCart := fun hc => hnk (hc ▸ odPop_mem_key hpop)
        refine ih ?_ ?_ h
        · rw [odLookup_odSet_ne st.carts (some p) hne]
          exact ha
        · exact fun hc => hnk (odPop_keys_subset hpop a hc)

theorem phase1_keeps {l : List Plate} {st st2 : AllocState} {p : Plate}
    (hnd : (odKeys st.cartStatus).Nodup) (hp : p ∈ l) (hplug : p.isPlugged = true)
    (h : phase1 l st = Except.ok st2) :
    odLookup st2.carts p.activeCart = some (some p) ∧
      p.activeCart ∉ odKeys st2.cartStatus := by
  induction l generalizing st with
  | nil => cases hp
  | cons q rest ih =>
    simp only [phase1] at h
    cases hq : q.isPlugged with
    | false =>
      rw [hq] at h
      simp only [Bool.false_eq_true, if_false] at h
      rcases List.mem_cons.mp hp with h1 | h1
      · rw [← h1] at hq
        rw [hplug] at hq
        cases hq
      · exact ih hnd h1 h
    | true =>
      rw [hq] at h
      simp only [if_true] at h
      cases hpop : odPop st.cartStatus q.activeCart with
      | error e => rw [hpop] at h; cases h
      | ok cs =>
        rw [hpop] at h
        by_cases hqp : q = p
        · subst hqp
          refine phase1_preserve ?_ ?_ h
          · exact odLookup_odSet_self _ _ _
          · exact odPop_not_mem_key hnd hpop
        · rcases List.mem_cons.mp hp with h1 | h1
          · exact absurd h1.symm hqp
          · refine ih ?_ h1 h
            exact (List.Sublist.map Prod.fst (odPop_sublist hpop)).nodup hnd

theorem phase2_preserve {cfg : Config} {l : List Plate} {st st2 : AllocState}
    {a : Nat} {v : Option Plate}
    (ha : odLookup st.carts a = some v) (hnk : a ∉ odKeys st.cartStatus)
    (h : phase2 cfg l st = Except.ok st2) :
    odLookup st2.carts a = some v ∧ a ∉ odKeys st2.cartStatus := by
  induction l generalizing st with
  | nil =>
    simp only [phase2, Except.ok.injEq] at h
    subst h
    exact ⟨ha, hnk⟩
  | cons p rest ih =>
    simp only [phase2] at h
    by_cases hmem : p ∈ st.allocated
    · rw [if_pos hmem] at h
      exact ih ha hnk h
    · rw [if_neg hmem] at h
      cases hrep : p.isReplug with
      | false =>
        rw [hrep] at h
        simp only [Bool.false_eq_true, if_false] at h
        exact ih ha hnk h
      | true =>
        rw [hrep] at h
        simp only [if_true] at h
        cases hcart : getCartForReplug p with
        | none => simp only [hcart] at h; cases h
        | some c =>
          simp only [hcart] at h
          cases hlook : odLookup st.cartStatus c with
          | none => simp only [hlook] at h; cases h
          | some cs =>
            simp only [hlook] at h
            by_cases hoff : c ∈ cfg.offlineCarts
            · rw [if_pos hoff] at h
              exact ih ha hnk h
            · rw [if_neg hoff] at h
              cases hpop : odPop st.cartStatus c with
              | error e => simp only [hpop] at h; cases h
              | ok csRest =>
                simp only [hpop] at h
                have hne : a ≠ c := fun hc => hnk (hc ▸ mem_odKeys_of_lookup hlook)
                refine ih ?_ ?_ h
                · rw [odLookup_odSet_ne st.carts (some p) hne]
                  exact ha
                · exact fun hc => hnk (odPop_keys_subset hpop a hc)

theorem phase3_preserve {l : List Plate} {sc : List CartStatus} {st : AllocState}
    {left : List CartStatus} {st2 : AllocState} {a : Nat} {v : Option Plate}
    (ha : odLookup st.carts a = some v) (hsc : ∀ cs ∈ sc, cs.cartNumber ≠ a)
    (h : phase3 l sc st = Except.ok (left, st2)) :
    odLookup st2.carts a = some v ∧ ∀ cs ∈ left, cs.cartNumber ≠ a := by
  induction l generalizing sc st with
  | nil =>
    simp only [phase3, Except.ok.injEq, Prod.mk.injEq] at h
    obtain ⟨h1, h2⟩ := h
    subst h1
    subst h2
    exact ⟨ha, hsc⟩
  | cons p rest ih =>
    simp only [phase3] at h
    by_cases hmem : p ∈ st.allocated
    · rw [if_pos hmem] at h
      exact ih ha hsc h
    · rw [if_neg hmem] at h
      cases sc with
      | nil => cases h
      | cons cart scRest =>
        simp only at h
        have hne : a ≠ cart.cartNumber :=
          fun hc => hsc cart (List.mem_cons_self _ _) hc.symm
        refine ih ?_ (fun cs hcs => hsc cs (List.mem_cons_of_mem _ hcs)) h
        rw [odLookup_odSet_ne st.carts (some p) hne]
        exact ha

theorem postStep_preserve {leftover : List CartStatus}
    {carts : List (Nat × Option Plate)} (msgs : List (Nat × (Option Plate × String)))
    {a : Nat} {v : Option Plate}
    (ha : odLookup carts a = some v) (hl : ∀ cs ∈ leftover, cs.cartNumber ≠ a) :
    odLookup (postStep leftover carts msgs).1 a = some v := by
  induction leftover generalizing carts msgs with
  | nil => exact ha
  | cons cs rest ih =>
    simp only [postStep]
    by_cases hc : cs.completion ≥ 1
    · rw [if_pos hc]
      exact ih _ ha (fun x hx => hl x (List.mem_cons_of_mem _ hx))
    · rw [if_neg hc]
      cases hp : cs.plate with
      | none => exact ih _ ha (fun x hx => hl x (List.mem_cons_of_mem _ hx))
      | some p =>
        dsimp only
        by_cases hlab : cs.label ≠ "noMaNGAplate"
        · rw [if_pos hlab]
          have hne : a ≠ cs.cartNumber :=
            fun hc2 => hl cs (List.mem_cons_self _ _) hc2.symm
          refine ih _ ?_ (fun x hx => hl x (List.mem_cons_of_mem _ hx))
          rw [odLookup_odSet_ne carts (some p) hne]
          exact ha
        · rw [if_neg hlab]
          exact ih _ ha (fun x hx => hl x (List.mem_cons_of_mem _ hx))

/-! Initial-state lemmas. -/

theorem odSet_none_values {od : List (Nat × Option Plate)}
    (hv : ∀ e ∈ od, e.2 = none) (k : Nat) :
    ∀ e ∈ odSet od k none, e.2 = none := by
  intro e he
  rcases mem_odSet he with h | h
  · rw [h]
  · exact hv e h

theorem initCarts_values_none (cfg : Config) : ∀ e ∈ initCarts cfg, e.2 = none := by
  unfold initCarts
  generalize (cfg.mangaCarts.filter (fun c => c ∉ cfg.offlineCarts)) = ks
  have hgen : ∀ od : List (Nat × Option Plate), (∀ e ∈ od, e.2 = none) →
      ∀ e ∈ ks.foldl (fun o c => odSet o c none) od, e.2 = none := by
    induction ks with
    | nil => intro od h; simpa using h
    | cons k rest ih =>
      intro od h
      simp only [List.foldl_cons]
      exact ih _ (odSet_none_values h k)
  exact hgen [] (by intro e he; cases he)

theorem initCarts_nodup (cfg : Config) : (odKeys (initCarts cfg)).Nodup := by
  unfold initCarts
  generalize (cfg.mangaCarts.filter (fun c => c ∉ cfg.offlineCarts)) = ks
  have hgen : ∀ od : List (Nat × Option Plate), (odKeys od).Nodup →
      (odKeys (ks.foldl (fun o c => odSet o c none) od)).Nodup := by
    induction ks with
    | nil => intro od h; simpa using h
    | cons k rest ih =>
      intro od h
      simp only [List.foldl_cons]
      exact ih _ (nodup_odKeys_odSet h k none)
  exact hgen [] (by simp [odKeys])

theorem readdOffline_values_none (cfg : Config) (aps : List ActivePlugging) :
    ∀ carts, (∀ e ∈ carts, e.2 = none) → ∀ e ∈ readdOffline cfg aps carts, e.2 = none := by
  induction aps with
  | nil => intro carts h; simpa [readdOffline] using h
  | cons ap rest ih =>
    intro carts h
    have hstep : ∀ e ∈ (if ap.pk ∈ cfg.offlineCarts then odSet carts ap.pk none else carts),
        e.2 = none := by
      by_cases hoff : ap.pk ∈ cfg.offlineCarts
      · rw [if_pos hoff]; exact odSet_none_values h ap.pk
      · rw [if_neg hoff]; exact h
    have hres := ih _ hstep
    simpa [readdOffline, List.foldl_cons] using hres

theorem readdOffline_nodup (cfg : Config) (aps : List ActivePlugging) :
    ∀ carts, (odKeys carts).Nodup → (odKeys (readdOffline cfg aps carts)).Nodup := by
  induction aps with
  | nil => intro carts h; simpa [readdOffline] using h
  | cons ap rest ih =>
    intro carts h
    have hstep : (odKeys (if ap.pk ∈ cfg.offlineCarts then odSet carts ap.pk none
        else carts)).Nodup := by
      by_cases hoff : ap.pk ∈ cfg.offlineCarts
      · rw [if_pos hoff]; exact nodup_odKeys_odSet h ap.pk none
      · rw [if_neg hoff]; exact h
    have hres := ih _ hstep
    simpa [readdOffline, List.foldl_cons] using hres

theorem statusKeysOf_nodup {carts : List (Nat × Option Plate)}
    (h : (odKeys carts).Nodup) : (statusKeysOf carts).Nodup :=
  ((List.filter_sublist carts).map Prod.fst).nodup h

/-! Assembly lemmas for the whole phase pipeline. -/

theorem allocPhases_unique {cfg : Config} {plates : List Plate}
    {aps : List ActivePlugging} {nNew : List (Nat × Nat)} {st0 : AllocState}
    {res : AllocResult}
    (hinv : CartsInv st0.carts st0.allocated)
    (hst : ∀ e ∈ st0.cartStatus, getCartStatus aps e.1 = Except.ok e.2)
    (hocc : ∀ ap ∈ aps, ap.plate.isPlugged = true)
    (hact : ∀ ap ∈ aps, ap.cartNumber = ap.plate.activeCart)
    (h : allocPhases cfg plates aps nNew st0 = Except.ok res) :
    (odKeys res.carts).Nodup ∧
      ∀ c1 c2 p, (c1, some p) ∈ res.carts → (c2, some p) ∈ res.carts → c1 = c2 := by
  simp only [allocPhases] at h
  cases hp1 : phase1 plates st0 with
  | error e => simp only [hp1] at h; cases h
  | ok st1 =>
    simp only [hp1] at h
    cases hp2 : phase2 cfg plates st1 with
    | error e => simp only [hp2] at h; cases h
    | ok st2 =>
      simp only [hp2] at h
      cases hp3 : phase3 plates (prioritiseCarts (st2.cartStatus.map Prod.snd) aps) st2 with
      | error e => simp only [hp3] at h; cases h
      | ok pair =>
        obtain ⟨leftover, st3⟩ := pair
        simp only [hp3] at h
        rcases hps : postStep leftover st3.carts st3.msgs with ⟨carts4, msgs4⟩
        rw [hps] at h
        simp only [Except.ok.injEq] at h
        subst h
        have hinv1 := phase1_inv hinv hp1
        have hplug1 := phase1_plugged_alloc hp1
        obtain ⟨hinv2, hmono2⟩ := phase2_inv hinv1 hplug1 hp2
        have hplug2 : ∀ p ∈ plates, p.isPlugged = true → p ∈ st2.allocated :=
          fun p hp hpl => hmono2 p (hplug1 p hp hpl)
        obtain ⟨hinv3, _hmono3, hleft⟩ := phase3_inv hinv2 hplug2 hp3
        have hsrc : ∀ cs ∈ leftover, ∀ p, cs.plate = some p →
            p.isPlugged = true ∧ cs.cartNumber = p.activeCart := by
          intro cs hcs p hcsp
          have hsc : cs ∈ prioritiseCarts (st2.cartStatus.map Prod.snd) aps := hleft cs hcs
          have hmm : cs ∈ st2.cartStatus.map Prod.snd := mem_prioritiseCarts hsc
          obtain ⟨e, he2, hesnd⟩ := List.mem_map.mp hmm
          have he1 : e ∈ st1.cartStatus := (phase2_status_sublist hp2).subset he2
          have he0 : e ∈ st0.cartStatus := (phase1_status_sublist hp1).subset he1
          have hgc := hst e he0
          obtain ⟨hnum, hsrcp⟩ := getCartStatus_ok hgc
          obtain ⟨ap, hap, hapc, happ⟩ := hsrcp p (by rw [hesnd]; exact hcsp)
          constructor
          · rw [← happ]
            exact hocc ap hap
          · have h1 : cs.cartNumber = e.1 := by rw [← hesnd]; exact hnum
            have h2 : ap.cartNumber = ap.plate.activeCart := hact ap hap
            rw [h1, ← hapc, h2, happ]
        have hinv4 := postStep_inv st3.msgs hinv3 hsrc
        rw [hps] at hinv4
        exact ⟨hinv4.1, hinv4.2.2.2⟩

theorem allocPhases_keeps {cfg : Config} {plates : List Plate}
    {aps : List ActivePlugging} {nNew : List (Nat × Nat)} {st0 : AllocState}
    {res : AllocResult} {p : Plate}
    (hnd : (odKeys st0.cartStatus).Nodup)
    (hcart : ∀ e ∈ st0.cartStatus, e.2.cartNumber = e.1)
    (hp : p ∈ plates) (hplug : p.isPlugged = true)
    (h : allocPhases cfg plates aps nNew st0 = Except.ok res) :
    odLookup res.carts p.activeCart = some (some p) := by
  simp only [allocPhases] at h
  cases hp1 : phase1 plates st0 with
  | error e => simp only [hp1] at h; cases h
  | ok st1 =>
    simp only [hp1] at h
    cases hp2 : phase2 cfg plates st1 with
    | error e => simp only [hp2] at h; cases h
    | ok st2 =>
      simp only [hp2] at h
      cases hp3 : phase3 plates (prioritiseCarts (st2.cartStatus.map Prod.snd) aps) st2 with
      | error e => simp only [hp3] at h; cases h
      | ok pair =>
        obtain ⟨leftover, st3⟩ := pair
        simp only [hp3] at h
        rcases hps : postStep leftover st3.carts st3.msgs with ⟨carts4, msgs4⟩
        rw [hps] at h
        simp only [Except.ok.injEq] at h
        subst h
        obtain ⟨hlook1, hnk1⟩ := phase1_keeps hnd hp hplug hp1
        obtain ⟨hlook2, hnk2⟩ := phase2_preserve hlook1 hnk1 hp2
        have hsc : ∀ cs ∈ prioritiseCarts (st2.cartStatus.map Prod.snd) aps,
            cs.cartNumber ≠ p.activeCart := by
          intro cs hcs hc
          have hmm : cs ∈ st2.cartStatus.map Prod.snd := mem_prioritiseCarts hcs
          obtain ⟨e, he2, hesnd⟩ := List.mem_map.mp hmm
          have he1 : e ∈ st1.cartStatus := (phase2_status_sublist hp2).subset he2
          have he0 : e ∈ st0.cartStatus := (phase1_status_sublist hp1).subset he1
          have hnum : cs.cartNumber = e.1 := by rw [← hesnd]; exact hcart e he0
          apply hnk2
          rw [← hc, hnum]
          exact List.mem_map.mpr ⟨e, he2, rfl⟩
        obtain ⟨hlook3, hleft3⟩ := phase3_preserve hlook2 hsc hp3
        have hfin := postStep_preserve st3.msgs hlook3 hleft3
        rw [hps] at hfin
        exact hfin

/-! Claim theorems. -/

/-- C1: for every run of the allocation engine (`allocateCarts` on the freshly
initialised cart dictionary, any candidate plate list, any cart pool), the
final cart-to-plate mapping binds each cart at most once (no duplicate keys)
and never assigns the same plate to two distinct carts. The two hypotheses
encode the data model's consistency of the active-plugging snapshot: every
occupant is plugged, and every plugging sits in its occupant's active cart. -/
theorem claim1_allocation_unique (cfg : Config) (plates : List Plate)
    (aps : List ActivePlugging) (nNew : List (Nat × Nat)) (res : AllocResult)
    (c1 c2 : Nat) (p : Plate)
    (hocc : ∀ ap ∈ aps, ap.plate.isPlugged = true)
    (hact : ∀ ap ∈ aps, ap.cartNumber = ap.plate.activeCart)
    (hok : allocateCarts cfg (initCarts cfg) plates aps nNew = Except.ok res)
    (hne : c1 ≠ c2) (h1 : odLookup res.carts c1 = some (some p)) :
    (odKeys res.carts).Nodup ∧ odLookup res.carts c2 ≠ some (some p) := by
  simp only [allocateCarts] at hok
  cases hbs : buildCartStatus aps (statusKeysOf (readdOffline cfg aps (initCarts cfg))) with
  | error e => simp only [hbs] at hok; cases hok
  | ok cartStatus =>
    simp only [hbs] at hok
    have hnone : ∀ e ∈ readdOffline cfg aps (initCarts cfg), e.2 = none :=
      readdOffline_values_none cfg aps _ (initCarts_values_none cfg)
    have hinv0 : CartsInv (readdOffline cfg aps (initCarts cfg)) [] := by
      refine ⟨readdOffline_nodup cfg aps _ (initCarts_nodup cfg), ?_, ?_, ?_⟩
      · intro c q hq
        exact absurd (hnone _ hq) (by simp)
      · intro c q hq
        exact absurd (hnone _ hq) (by simp)
      · intro ca cb q ha hb
        exact absurd (hnone _ ha) (by simp)
    have hres := allocPhases_unique hinv0 (buildCartStatus_mem hbs) hocc hact hok
    exact ⟨hres.1, fun h2 => hne (hres.2 c1 c2 p (odLookup_mem h1) (odLookup_mem h2))⟩

/-- Witness for C1: a concrete successful run with a plugged plate in cart 1
and a fresh plate in cart 2; the final mapping has no duplicate key and does
not repeat the plate of cart 1 in cart 2. -/
theorem claim1_allocation_unique_witness :
    (odKeys resUniq.carts).Nodup ∧ odLookup resUniq.carts 2 ≠ some (some pStarted) :=
  claim1_allocation_unique cfgTwo [pStarted, pNew] apsStab [] resUniq 1 2 pStarted
    (by decide) (by decide) (by rfl) (by decide) (by rfl)

/-- C2 (amended): for every run whose candidate list survives the truncation
pre-step (at most as many plates as available carts), every plugged candidate
plate is assigned to its currently active cart in the final allocation. -/
theorem claim2_amended_stability (cfg : Config) (plates : List Plate)
    (aps : List ActivePlugging) (nNew : List (Nat × Nat)) (res : AllocResult)
    (p : Plate)
    (hlen : plates.length ≤ (initCarts cfg).length)
    (hp : p ∈ plates) (hplug : p.isPlugged = true)
    (hok : allocateCarts cfg (initCarts cfg) plates aps nNew = Except.ok res) :
    odLookup res.carts p.activeCart = some (some p) := by
  simp only [allocateCarts] at hok
  cases hbs : buildCartStatus aps (statusKeysOf (readdOffline cfg aps (initCarts cfg))) with
  | error e => simp only [hbs] at hok; cases hok
  | ok cartStatus =>
    simp only [hbs] at hok
    have htr : truncatePlates plates (initCarts cfg) = plates := by
      unfold truncatePlates
      rw [if_neg (by omega)]
    rw [htr] at hok
    have hkeys : odKeys cartStatus = statusKeysOf (readdOffline cfg aps (initCarts cfg)) :=
      buildCartStatus_keys hbs
    have hnd : (odKeys cartStatus).Nodup := by
      rw [hkeys]
      exact statusKeysOf_nodup (readdOffline_nodup cfg aps _ (initCarts_nodup cfg))
    have hcart : ∀ e ∈ cartStatus, e.2.cartNumber = e.1 :=
      fun e he => (getCartStatus_ok (buildCartStatus_mem hbs e he)).1
    exact allocPhases_keeps hnd hcart hp hplug hok

/-- Witness for C2: a run with a single plugged candidate, which stays in its
cart 1. -/
theorem claim2_amended_stability_witness :
    odLookup resStab.carts pStarted.activeCart = some (some pStarted) :=
  claim2_amended_stability cfgTwo [pStarted] apsStab [] resStab pStarted
    (by decide) (by decide) (by rfl) (by rfl)

/-- C2 counterexample: with three candidate plates and two carts the
truncation pre-step drops the plugged plate `pTrunc` (third in the list), and
phase 3 then hands its cart 1 to `pNew2`, so a plugged plate present in the
candidate list is not assigned to its active cart. -/
theorem claim2_stability_counterexample :
    pTrunc.isPlugged = true ∧ pTrunc ∈ [pNew, pNew2, pTrunc] ∧
    allocateCarts cfgTwo (initCarts cfgTwo) [pNew, pNew2, pTrunc] apsTrunc [] =
      Except.ok resTrunc ∧
    odLookup resTrunc.carts pTrunc.activeCart ≠ some (some pTrunc) :=
  ⟨rfl, by decide, by rfl, by decide⟩

/-- C3: the code violates the offline-exclusion claim. At this input the
offline cart 2 holds an active plugging of a complete plate; lines 431-433
re-add it to the cart dictionary, the status pool picks it up, and phase 3's
greedy fill (which, unlike phase 2, never checks `offlineCarts`) assigns the
candidate plate `pNew` to the offline cart. -/
theorem claim3_offline_assigned :
    2 ∈ cfgOffline.offlineCarts ∧
    (allocateCarts cfgOffline (initCarts cfgOffline) [pNew] apsBoth []).map
        AllocResult.carts = Except.ok [(1, some pStarted), (2, some pNew)] ∧
    odLookup [((1 : Nat), some pStarted), (2, some pNew)] 2 = some (some pNew) :=
  ⟨by decide, by rfl, by rfl⟩

/-- C4: `prioritiseCarts` returns exactly the concatenation of the six label
buckets in the order empty, complete, unknown, non-MaNGA, not-started,
started, where each unsorted bucket is the order-preserving filter of the
input and the started bucket is a permutation of its filter sorted ascending
by completion; in particular the spec's five-status example is reordered as
claimed. -/
theorem claim4_prioritise_order :
    (∀ (l : List CartStatus) (aps : List ActivePlugging), ∃ s : List CartStatus,
        s.Perm (l.filter (fun c => c.label = "MaNGA_started")) ∧
        (s.map CartStatus.completion).Sorted (· ≤ ·) ∧
        prioritiseCarts l aps =
          l.filter (fun c => c.label = "empty") ++
          l.filter (fun c => c.label = "MaNGA_complete") ++
          l.filter (fun c => c.label = "unknown") ++
          l.filter (fun c => c.label = "noMaNGAplate") ++
          l.filter (fun c => c.label = "MaNGA_noStarted") ++ s) ∧
    prioritiseCarts [stEmpty, stStarted09, stComplete, stStarted02, stUnknown] [] =
      [stEmpty, stComplete, stUnknown, stStarted02, stStarted09] := by
  constructor
  · intro l aps
    refine ⟨List.insertionSort completionLE (l.filter (fun c => c.label = "MaNGA_started")),
      List.perm_insertionSort _ _, ?_, prioritiseCarts_eq l aps⟩
    have hs : List.Sorted completionLE
        (List.insertionSort completionLE (l.filter (fun c => c.label = "MaNGA_started"))) := by
      haveI : IsTotal CartStatus completionLE := ⟨fun a b => le_total _ _⟩
      haveI : IsTrans CartStatus completionLE := ⟨fun a b c => le_trans⟩
      exact List.sorted_insertionSort _ _
    exact List.pairwise_map.mpr hs
  · rfl

/-- C5: `getCartStatus` fails if and only if more than one active plugging
references the queried cart, and with zero matches it returns the empty
status tuple `(cartId, none, 0, "empty", 0)`. -/
theorem claim5_cart_status_classifier (aps : List ActivePlugging) (c : Nat) :
    ((∃ e, getCartStatus aps c = Except.error e) ↔
        1 < (aps.filter (fun ap => ap.cartNumber == c)).length) ∧
    ((aps.filter (fun ap => ap.cartNumber == c)).length = 0 →
        getCartStatus aps c = Except.ok ⟨c, none, 0, "empty", 0⟩) := by
  cases hfil : aps.filter (fun ap => ap.cartNumber == c) with
  | nil =>
    constructor
    · constructor
      · rintro ⟨e, he⟩
        unfold getCartStatus at he
        rw [hfil] at he
        cases he
      · intro hlen
        simp at hlen
    · intro _
      unfold getCartStatus
      rw [hfil]
  | cons ap tail =>
    cases tail with
    | nil =>
      constructor
      · constructor
        · rintro ⟨e, he⟩
          unfold getCartStatus at he
          rw [hfil] at he
          dsimp only at he
          split_ifs at he
        · intro hlen
          simp at hlen
      · intro hlen
        simp at hlen
    | cons ap2 tail2 =>
      constructor
      · constructor
        · intro _
          simp only [List.length_cons]
          omega
        · intro _
          refine ⟨"more than one active plugging", ?_⟩
          unfold getCartStatus
          rw [hfil]
      · intro hlen
        simp at hlen

/-- Witness for C5: with no active pluggings the classifier returns the empty
status tuple for cart 7. -/
theorem claim5_cart_status_classifier_witness :
    getCartStatus [] 7 = Except.ok ⟨7, none, 0, "empty", 0⟩ :=
  (claim5_cart_status_classifier [] 7).2 rfl

/-- C6: the code violates the replug-fallback claim. A candidate flagged
`isReplug` with no plugging history makes `getCartForReplug` return `None`,
and line 457 (`statusCode = cartStatus[cartNumber][2]`) runs before the
`cartNumber is not None` test of line 458, so the run dies with a `KeyError`
instead of skipping the preference and reaching phase 3. -/
theorem claim6_replug_keyerror :
    pReplugNoHist.isReplug = true ∧ pReplugNoHist.pluggings = [] ∧
    pReplugNoHist.isPlugged = false ∧
    allocateCarts cfgTwo (initCarts cfgTwo) [pReplugNoHist] [] [] =
      Except.error "KeyError" :=
  ⟨rfl, rfl, rfl, by rfl⟩

/-- C7 (amended): the mapping returned by the scheduled-path pipeline holds an
entry only for carts that were allocated a plate — each mapped to the plate's
identifier, never to none (`_cleanUp` removed the empty bindings) — while
every primary-pool cart id does appear in the `cart_order` sequence. -/
theorem claim7_amended_output (cfg : Config) (plates : List Plate)
    (aps : List ActivePlugging) (nNew : List (Nat × Nat))
    (out : List (Nat × Option Nat) × List Nat)
    (hok : runPlugger cfg plates aps nNew = Except.ok out) :
    (∀ e ∈ out.1, ∃ pid, e.2 = some pid) ∧ ∀ c ∈ cfg.mangaCarts, c ∈ out.2 := by
  unfold runPlugger at hok
  cases hr : allocateCarts cfg (initCarts cfg) plates aps nNew with
  | error e => rw [hr] at hok; cases hok
  | ok res =>
    rw [hr] at hok
    simp only [Except.ok.injEq] at hok
    subst hok
    constructor
    · intro e he
      simp only [getASOutput] at he
      obtain ⟨f, hf, hfe⟩ := List.mem_map.mp he
      have hf2 := (List.mem_filter.mp hf).2
      cases hv : f.2 with
      | none => rw [hv] at hf2; simp [Option.isNone] at hf2
      | some p =>
        refine ⟨p.plate_id, ?_⟩
        rw [← hfe]
        simp [hv]
    · intro c hc
      simp only [getASOutput]
      simp only [List.mem_append, List.mem_reverse, List.mem_filter]
      by_cases hmem : c ∈ res.cartOrder
      · exact Or.inr (Or.inr hmem)
      · exact Or.inr (Or.inl ⟨hc, by simpa using hmem⟩)

/-- Witness for C7 (amended) at a concrete run: one plate, two carts; the
output maps only cart 1 (to a plate id) and cart_order covers both carts. -/
theorem claim7_amended_output_witness :
    (∀ e ∈ ([((1 : Nat), some (30 : Nat))] : List (Nat × Option Nat)),
        ∃ pid, e.2 = some pid) ∧
    ∀ c ∈ cfgTwo.mangaCarts, c ∈ ([2, 1] : List Nat) :=
  claim7_amended_output cfgTwo [pNew] [] [] ([(1, some 30)], [2, 1]) (by rfl)

/-- C7 counterexample: in the same run the unassigned primary-pool cart 2 has
no entry at all in the returned mapping, so the mapping does not contain an
entry for every known primary-pool slot id. -/
theorem claim7_missing_cart_counterexample :
    2 ∈ cfgTwo.mangaCarts ∧
    runPlugger cfgTwo [pNew] [] [] = Except.ok ([(1, some 30)], [2, 1]) ∧
    odLookup ([((1 : Nat), some (30 : Nat))] : List (Nat × Option Nat)) 2 = none :=
  ⟨by decide, by rfl, by rfl⟩

/-- C8 (amended): every plate of the raw eligible pool whose priority is
exactly the configured force-plug value is retained by `selectPlates`,
regardless of the priority floor and the completeness filter. -/
theorem claim8_amended_force_retained (cfg : Config) (plates : List Plate)
    (p : Plate) (hp : p ∈ plates) (hprio : p.priority = cfg.forcePlugPriority) :
    p ∈ selectPlates cfg plates := by
  unfold selectPlates
  apply List.mem_append_left
  exact List.mem_filter.mpr ⟨hp, by simp [hprio]⟩

/-- Witness for C8 (amended): a complete force-priority plate is retained. -/
theorem claim8_amended_force_retained_witness :
    pForce ∈ selectPlates cfgTwo [pForce] :=
  claim8_amended_force_retained cfgTwo [pForce] pForce (by decide) (by rfl)

/-- C8 counterexample: a complete, unplugged plate with priority 11 — at or
above the force value 10 — is dropped by `selectPlates`, because the source
compares with `==` (line 301) and the completeness filter then rejects it. -/
theorem claim8_highprio_dropped_counterexample :
    cfgTwo.forcePlugPriority ≤ pHighPrio.priority ∧ pHighPrio ∈ [pHighPrio] ∧
    selectPlates cfgTwo [pHighPrio] = [] :=
  ⟨by decide, by decide, by rfl⟩

/-- C9 counterexample: a cart holding a non-force plate with completion
exactly 1 is ordered by the source inside the scheduled bucket (after the
cart with fewer planned exposures), not first as the claim's
"completion ≥ 1" completed bucket demands: the code compares with a strict
`> 1` (line 570). -/
theorem claim9_completed_one_counterexample :
    pDoneOne.completionNoMock ≥ 1 ∧ pDoneOne.priority ≠ cfgTwo.forcePlugPriority ∧
    addCartOrderScheduled cfgTwo [(1, some pDoneOne), (2, some pHalfDone)]
      [(60, 5), (61, 2)] = [2, 1] ∧
    claimedCartOrderScheduled cfgTwo [(1, some pDoneOne), (2, some pHalfDone)]
      [(60, 5), (61, 2)] = [1, 2] ∧
    ([2, 1] : List Nat) ≠ [1, 2] :=
  ⟨by decide, by decide, by rfl, by rfl, by decide⟩

/-- C9 (amended): under the `scheduled` metric the cart order is exactly:
carts of non-force plates with completion strictly greater than 1 first, then
offline carts not otherwise used, then carts of scheduled plates in ascending
order of planned new exposure count, then force-priority carts last. -/
theorem claim9_amended_cart_order (cfg : Config) (carts : List (Nat × Option Plate))
    (nNew : List (Nat × Nat)) :
    ∃ sched : List (Nat × Plate),
      sched.Perm ((cartsOccupied carts).filter
        (fun e => ¬e.2.priority = cfg.forcePlugPriority ∧ ¬e.2.completionNoMock > 1)) ∧
      (sched.map (nNewKey nNew)).Sorted (· ≤ ·) ∧
      addCartOrderScheduled cfg carts nNew =
        ((cartsOccupied carts).filter
          (fun e => ¬e.2.priority = cfg.forcePlugPriority ∧
            e.2.completionNoMock > 1)).map Prod.fst ++
        cfg.offlineCarts.filter (fun c => c ∉
          (((cartsOccupied carts).filter
              (fun e => ¬e.2.priority = cfg.forcePlugPriority ∧
                e.2.completionNoMock > 1)) ++ sched ++
            ((cartsOccupied carts).filter
              (fun e => e.2.priority = cfg.forcePlugPriority))).map Prod.fst) ++
        sched.map Prod.fst ++
        ((cartsOccupied carts).filter
          (fun e => e.2.priority = cfg.forcePlugPriority)).map Prod.fst := by
  refine ⟨List.insertionSort (nNewLE nNew) ((cartsOccupied carts).filter
      (fun e => ¬e.2.priority = cfg.forcePlugPriority ∧ ¬e.2.completionNoMock > 1)),
    List.perm_insertionSort _ _, ?_, ?_⟩
  · have hs := by
      haveI : IsTotal (Nat × Plate) (nNewLE nNew) := ⟨fun a b => le_total _ _⟩
      haveI : IsTrans (Nat × Plate) (nNewLE nNew) := ⟨fun a b c => le_trans⟩
      exact List.sorted_insertionSort (nNewLE nNew) ((cartsOccupied carts).filter
        (fun e => ¬e.2.priority = cfg.forcePlugPriority ∧ ¬e.2.completionNoMock > 1))
    exact List.pairwise_map.mpr hs
  · simp only [addCartOrderScheduled, cartOrderBuckets_eq]

/-- C10: constructing the plugger with both dates equal to 0.0 is normalised
to both dates absent: the run enters the degraded no-dates mode instead of
raising the malformed-parameter error or scheduling an allocation. -/
theorem claim10_zero_dates_no_manga :
    pluggerInit (some 0) (some 0) = pluggerInit none none ∧
    pluggerInit none none = PluggerMode.noManga :=
  ⟨rfl, rfl⟩
